import Mathlib

/-!
Verification development for the Deltarune FR patcher CLI (`src/main.rs`).

The core of the program is shallowly embedded here:
* byte buffers are `List Nat` (each byte reduced mod 256 where the code treats
  them as `u8`),
* paths are `List Char`, with the relevant fragment of the Rust
  `std::path` semantics (`extension`, `file_stem`, `with_extension`,
  splitting the file name at the last dot while ignoring a leading dot),
* the filesystem is a finite association of paths to regular-file contents,
  threaded explicitly through the install and uninstall loops,
* the external BPS decoder (`flips::BpsPatch::apply`) is an abstract
  parameter, and fallible writes / removals / renames are modelled by
  explicit fault sets of paths on which the operation fails.
-/

deriving instance DecidableEq for Except

namespace Patcher

/-- Byte buffers, as in `Vec<u8>` / `&[u8]` in the source. -/
abbrev Bytes := List Nat

/-- Paths, as the character list of the path string. -/
abbrev PathC := List Char

/-! ### Filesystem model -/

/-- A filesystem: a finite association of paths to regular-file contents. -/
abbrev FS := List (PathC × Bytes)

/-- Read the bytes of a file (first matching entry). -/
def FS.read : FS → PathC → Option Bytes
  | [], _ => none
  | (q, d) :: rest, p => if q = p then some d else FS.read rest p

/-- Rust `Path::is_file` / `Path::exists` in this model (only regular files exist). -/
def FS.isFile (fs : FS) (p : PathC) : Bool := (FS.read fs p).isSome

/-- Remove every entry at path `p` (`fs::remove_file`). -/
def FS.removeFile : FS → PathC → FS
  | [], _ => []
  | (q, d) :: rest, p =>
      if q = p then FS.removeFile rest p else (q, d) :: FS.removeFile rest p

/-- Write `d` at path `p`, replacing any previous content (`fs::write`). -/
def FS.writeFile (fs : FS) (p : PathC) (d : Bytes) : FS := (p, d) :: FS.removeFile fs p

theorem FS.read_removeFile (fs : FS) (p q : PathC) :
    FS.read (FS.removeFile fs p) q = if q = p then none else FS.read fs q := by
  induction fs with
  | nil => simp [FS.removeFile, FS.read]
  | cons e rest ih =>
      obtain ⟨k, d⟩ := e
      by_cases hkp : k = p
      · subst hkp
        by_cases hkq : k = q
        · subst hkq
          simp [FS.removeFile, FS.read, ih]
        · simp [FS.removeFile, FS.read, ih, hkq]
      · by_cases hkq : k = q
        · subst hkq
          simp [FS.removeFile, FS.read, hkp, ih]
        · simp [FS.removeFile, FS.read, hkp, hkq, ih]

theorem FS.read_writeFile (fs : FS) (p q : PathC) (d : Bytes) :
    FS.read (FS.writeFile fs p d) q = if p = q then some d else FS.read fs q := by
  unfold FS.writeFile
  by_cases hpq : p = q <;> simp [FS.read, hpq, FS.read_removeFile]
  intro h; exact absurd h.symm hpq

theorem FS.read_mem {fs : FS} {p : PathC} {d : Bytes} (h : FS.read fs p = some d) :
    (p, d) ∈ fs := by
  induction fs with
  | nil => simp [FS.read] at h
  | cons e rest ih =>
      obtain ⟨k, c⟩ := e
      by_cases hkp : k = p
      · subst hkp
        simp [FS.read] at h
        simp [h]
      · simp [FS.read, hkp] at h
        exact List.mem_cons_of_mem _ (ih h)

/-! ### Path operations (the fragment of `std::path` the program uses) -/

/-- Split a character list at the LAST occurrence of `sep`:
`some (before, after)` with `l = before ++ sep :: after` and `sep ∉ after`. -/
def splitAtLastChar (sep : Char) : PathC → Option (PathC × PathC)
  | [] => none
  | c :: cs =>
      match splitAtLastChar sep cs with
      | some (b, a) => some (c :: b, a)
      | none => if c = sep then some ([], cs) else none

theorem splitAtLastChar_eq_none {sep : Char} {l : PathC} (h : sep ∉ l) :
    splitAtLastChar sep l = none := by
  induction l with
  | nil => rfl
  | cons c cs ih =>
      simp only [List.mem_cons, not_or] at h
      have hc : ¬ c = sep := fun hcc => h.1 hcc.symm
      simp [splitAtLastChar, ih h.2, hc]

theorem splitAtLastChar_append (sep : Char) (xs : PathC) {ys : PathC} (h : sep ∉ ys) :
    splitAtLastChar sep (xs ++ sep :: ys) = some (xs, ys) := by
  induction xs with
  | nil => simp [splitAtLastChar, splitAtLastChar_eq_none h]
  | cons x xs ih => simp [splitAtLastChar, ih]

theorem mem_of_splitAtLastChar_eq_none {sep : Char} {l : PathC}
    (h : splitAtLastChar sep l = none) : sep ∉ l := by
  induction l with
  | nil => simp
  | cons c cs ih =>
      simp only [splitAtLastChar] at h
      cases hcs : splitAtLastChar sep cs with
      | some pr => rw [hcs] at h; cases h
      | none =>
          rw [hcs] at h
          by_cases hc : c = sep
          · simp [hc] at h
          · have hsc : ¬ sep = c := fun hh => hc hh.symm
            simp [hsc, ih hcs]

theorem splitAtLastChar_some {sep : Char} {l b a : PathC}
    (h : splitAtLastChar sep l = some (b, a)) : l = b ++ sep :: a ∧ sep ∉ a := by
  induction l generalizing b a with
  | nil => simp [splitAtLastChar] at h
  | cons c cs ih =>
      simp only [splitAtLastChar] at h
      cases hcs : splitAtLastChar sep cs with
      | some pr =>
          obtain ⟨b', a'⟩ := pr
          rw [hcs] at h
          simp at h
          obtain ⟨hb, ha⟩ := h
          obtain ⟨hdec, hmem⟩ := ih hcs
          subst hb; subst ha
          simp [hdec, hmem]
      | none =>
          rw [hcs] at h
          by_cases hc : c = sep
          · simp [hc] at h
            obtain ⟨hb, ha⟩ := h
            subst hb; subst ha
            exact ⟨by simp [hc], mem_of_splitAtLastChar_eq_none hcs⟩
          · simp [hc] at h

/-- Rust `Path::file_name` of a path that does not end in a separator:
the part after the last slash. -/
def fileName (p : PathC) : PathC :=
  match splitAtLastChar '/' p with
  | some (_, f) => f
  | none => p

/-- The directory part of `p`, including the trailing slash, so that
`dirPart p ++ fileName p = p`. -/
def dirPart (p : PathC) : PathC :=
  match splitAtLastChar '/' p with
  | some (d, _) => d ++ ['/']
  | none => []

theorem dirPart_append_fileName (p : PathC) : dirPart p ++ fileName p = p := by
  unfold dirPart fileName
  cases h : splitAtLastChar '/' p with
  | some pr =>
      obtain ⟨d, f⟩ := pr
      have := (splitAtLastChar_some h).1
      simp [this]
  | none => simp

theorem slash_not_mem_fileName (p : PathC) : '/' ∉ fileName p := by
  unfold fileName
  cases h : splitAtLastChar '/' p with
  | some pr =>
      obtain ⟨d, f⟩ := pr
      exact (splitAtLastChar_some h).2
  | none => exact mem_of_splitAtLastChar_eq_none h

theorem fileName_append {s : PathC} (p : PathC) (h : '/' ∉ s) :
    fileName (p ++ s) = fileName p ++ s := by
  unfold fileName
  cases hp : splitAtLastChar '/' p with
  | some pr =>
      obtain ⟨d, f⟩ := pr
      obtain ⟨hdec, hf⟩ := splitAtLastChar_some hp
      have : p ++ s = d ++ '/' :: (f ++ s) := by simp [hdec]
      rw [this, splitAtLastChar_append]
      simp [hf, h]
  | none =>
      have hnp := mem_of_splitAtLastChar_eq_none hp
      have : splitAtLastChar '/' (p ++ s) = none := by
        apply splitAtLastChar_eq_none
        simp [hnp, h]
      rw [this]

theorem dirPart_append {s : PathC} (p : PathC) (h : '/' ∉ s) :
    dirPart (p ++ s) = dirPart p := by
  unfold dirPart
  cases hp : splitAtLastChar '/' p with
  | some pr =>
      obtain ⟨d, f⟩ := pr
      obtain ⟨hdec, hf⟩ := splitAtLastChar_some hp
      have : p ++ s = d ++ '/' :: (f ++ s) := by simp [hdec]
      rw [this, splitAtLastChar_append]
      simp [hf, h]
  | none =>
      have hnp := mem_of_splitAtLastChar_eq_none hp
      have : splitAtLastChar '/' (p ++ s) = none := by
        apply splitAtLastChar_eq_none
        simp [hnp, h]
      rw [this]

/-- The Rust helper `split_file_at_dot` on a file name: `(stem, extension)`.
`".."` is special-cased, and a dot at index 0 (hidden files) does not
start an extension. -/
def splitFileAtDot : PathC → PathC × Option PathC
  | [] => ([], none)
  | c :: cs =>
      if c :: cs = ['.', '.'] then (c :: cs, none)
      else
        match splitAtLastChar '.' cs with
        | some (b, a) => (c :: b, some a)
        | none => (c :: cs, none)

/-- Rust `Path::extension`. -/
def extension (p : PathC) : Option PathC := (splitFileAtDot (fileName p)).2

/-- Rust `Path::file_stem` (for paths whose file name exists). -/
def fileStem (p : PathC) : PathC := (splitFileAtDot (fileName p)).1

/-- Rust `PathBuf::set_extension` / `Path::with_extension`: truncate the file
name to its stem, then append `.` and the new extension when it is
non-empty.  When the path has no usable file name the path is unchanged. -/
def withExtension (p : PathC) (ext : PathC) : PathC :=
  if fileName p = [] ∨ fileName p = ['.', '.'] then p
  else
    dirPart p ++
      (if ext = [] then (splitFileAtDot (fileName p)).1
       else (splitFileAtDot (fileName p)).1 ++ '.' :: ext)

/-- The characters of `".bak"`. -/
def bakDotSuffix : PathC := ['.', 'b', 'a', 'k']

/-- The characters of the extension `"bak"`. -/
def bakExt : PathC := ['b', 'a', 'k']

/-- The backup path derived in `run_install_process` (line 292):
`source.with_extension(format!("{}.bak", source.extension().unwrap_or_default()))`. -/
def backupPath (p : PathC) : PathC :=
  withExtension p (((extension p).getD []) ++ bakDotSuffix)

/-! ### Path lemmas -/

theorem extension_some_elim {p e : PathC} (h : extension p = some e) :
    ∃ c b, fileName p = c :: (b ++ '.' :: e) ∧ '.' ∉ e ∧
      splitFileAtDot (fileName p) = (c :: b, some e) ∧
      fileName p ≠ [] ∧ fileName p ≠ ['.', '.'] := by
  unfold extension at h
  cases hf : fileName p with
  | nil => rw [hf] at h; simp [splitFileAtDot] at h
  | cons c cs =>
      rw [hf, splitFileAtDot] at h
      by_cases hdd : c :: cs = ['.', '.']
      · rw [if_pos hdd] at h; simp at h
      · rw [if_neg hdd] at h
        cases hsp : splitAtLastChar '.' cs with
        | none => rw [hsp] at h; simp at h
        | some pr =>
            obtain ⟨b, a⟩ := pr
            rw [hsp] at h
            simp at h
            subst h
            obtain ⟨hdec, hmem⟩ := splitAtLastChar_some hsp
            refine ⟨c, b, ?_, hmem, ?_, ?_, ?_⟩
            · rw [hdec]
            · rw [splitFileAtDot, if_neg hdd, hsp]
            · simp
            · exact hdd

theorem backupPath_eq_append {p e : PathC} (h : extension p = some e) :
    backupPath p = p ++ bakDotSuffix := by
  obtain ⟨c, b, hdecomp, hmem, hsplit, hne, hdd⟩ := extension_some_elim h
  unfold backupPath withExtension
  rw [h]
  rw [if_neg (by simp [hne, hdd])]
  rw [if_neg (by simp [bakDotSuffix])]
  rw [hsplit]
  conv_rhs => rw [← dirPart_append_fileName p]
  rw [hdecomp]
  simp [bakDotSuffix]

theorem strip_backupPath {p e : PathC} (h : extension p = some e) :
    withExtension (p ++ bakDotSuffix) [] = p := by
  obtain ⟨c, b, hdecomp, hmem, hsplit, hne, hdd⟩ := extension_some_elim h
  have hslash : '/' ∉ bakDotSuffix := by decide
  have hfn : fileName (p ++ bakDotSuffix) = fileName p ++ bakDotSuffix :=
    fileName_append p hslash
  have hdp : dirPart (p ++ bakDotSuffix) = dirPart p := dirPart_append p hslash
  have hfn2 : fileName p ++ bakDotSuffix = c :: (b ++ '.' :: (e ++ bakDotSuffix)) := by
    rw [hdecomp]; simp
  have hlen : c :: (b ++ '.' :: (e ++ bakDotSuffix)) ≠ ['.', '.'] := by
    intro hEq
    have := congrArg List.length hEq
    simp [bakDotSuffix] at this
    omega
  have hguard : ¬ (c :: (b ++ '.' :: (e ++ bakDotSuffix)) = [] ∨
      c :: (b ++ '.' :: (e ++ bakDotSuffix)) = ['.', '.']) := by
    push_neg
    exact ⟨by simp, hlen⟩
  have hsp2 : splitAtLastChar '.' (b ++ '.' :: (e ++ bakDotSuffix)) =
      some (b ++ '.' :: e, ['b', 'a', 'k']) := by
    have hform : b ++ '.' :: (e ++ bakDotSuffix) = (b ++ '.' :: e) ++ '.' :: ['b', 'a', 'k'] := by
      simp [bakDotSuffix]
    rw [hform]
    exact splitAtLastChar_append '.' (b ++ '.' :: e) (by decide)
  unfold withExtension
  rw [hfn, hfn2]
  rw [if_neg hguard]
  rw [if_pos rfl]
  rw [splitFileAtDot, if_neg hlen, hsp2, hdp]
  conv_rhs => rw [← dirPart_append_fileName p]
  rw [hdecomp]

theorem withExtension_nil_length {p e : PathC} (h : extension p = some e) :
    (withExtension p []).length < p.length := by
  obtain ⟨c, b, hdecomp, hmem, hsplit, hne, hdd⟩ := extension_some_elim h
  unfold withExtension
  rw [if_neg (by simp [hne, hdd])]
  rw [if_pos rfl, hsplit]
  conv_rhs => rw [← dirPart_append_fileName p]
  rw [hdecomp]
  simp

theorem withExtension_nil_ne {p e : PathC} (h : extension p = some e) :
    withExtension p [] ≠ p := by
  intro hEq
  have := withExtension_nil_length h
  rw [hEq] at this
  exact Nat.lt_irrefl _ this

theorem extension_none_of_withExtension_nil_eq {p : PathC}
    (h : withExtension p [] = p) : ∀ e, extension p ≠ some e :=
  fun _ he => withExtension_nil_ne he h

/-! ### CRC-32 (ISO-HDLC), as computed by the `crc` crate in `calculate_crc32` -/

/-- The reflected form of the standard CRC-32 polynomial `0x04C11DB7`. -/
def CRC32_REFLECTED_POLY : Nat := 0xEDB88320

/-- One bit step of the reflected CRC-32 algorithm. -/
def crc32StepBit (c : Nat) : Nat :=
  if c % 2 = 1 then (c / 2) ^^^ CRC32_REFLECTED_POLY else c / 2

/-- Process one input byte (8 bit steps after xoring the byte in). -/
def crc32StepByte (c b : Nat) : Nat := crc32StepBit^[8] (c ^^^ (b % 256))

/-- The function `calculate_crc32` (main.rs lines 69-72): CRC-32/ISO-HDLC with initial
value `0xFFFFFFFF` and final xor `0xFFFFFFFF`. -/
def calculate_crc32 (data : Bytes) : Nat :=
  (data.foldl crc32StepByte 0xFFFFFFFF) ^^^ 0xFFFFFFFF

/-- The byte values of an ASCII string. -/
def asciiBytes (s : String) : Bytes := s.data.map (fun c => c.toNat)

theorem xor_lt_two_pow_32 {x y : Nat} (hx : x < 2 ^ 32) (hy : y < 2 ^ 32) :
    x ^^^ y < 2 ^ 32 :=
  Nat.bitwise_lt hx hy

theorem crc32StepBit_lt {c : Nat} (h : c < 2 ^ 32) : crc32StepBit c < 2 ^ 32 := by
  unfold crc32StepBit
  split
  · exact xor_lt_two_pow_32 (by omega) (by norm_num [CRC32_REFLECTED_POLY])
  · omega

theorem crc32StepBit_iterate_lt (n : Nat) {c : Nat} (h : c < 2 ^ 32) :
    crc32StepBit^[n] c < 2 ^ 32 := by
  induction n generalizing c with
  | zero => simpa using h
  | succ n ih =>
      rw [Function.iterate_succ_apply]
      exact ih (crc32StepBit_lt h)

theorem crc32StepByte_lt {c : Nat} (b : Nat) (h : c < 2 ^ 32) :
    crc32StepByte c b < 2 ^ 32 :=
  crc32StepBit_iterate_lt 8 (xor_lt_two_pow_32 h (by omega))

theorem calculate_crc32_lt (data : Bytes) : calculate_crc32 data < 2 ^ 32 := by
  unfold calculate_crc32
  refine xor_lt_two_pow_32 ?_ (by norm_num)
  have hfold : ∀ (l : Bytes) (c : Nat), c < 2 ^ 32 → List.foldl crc32StepByte c l < 2 ^ 32 := by
    intro l
    induction l with
    | nil => intro c h; simpa using h
    | cons x xs ih => intro c h; exact ih _ (crc32StepByte_lt x h)
  exact hfold data _ (by norm_num)

/-! ### Checksum extraction and verification (`can_apply_bps`, lines 74-98) -/

/-- Rust `u32::from_le_bytes` on four byte values. -/
def u32FromLeBytes (b0 b1 b2 b3 : Nat) : Nat :=
  b0 + 256 * b1 + 65536 * b2 + 16777216 * b3

/-- The expected-source checksum embedded in a BPS container: the code seeks
to `SeekFrom::End(-12)` (which errors when the container is shorter than 12
bytes) and reads 4 bytes little-endian. -/
def expected_checksum (patchData : Bytes) : Except String Nat :=
  if patchData.length < 12 then
    Except.error "invalid seek to a negative or overflowing position"
  else
    Except.ok (u32FromLeBytes
      (patchData.getD (patchData.length - 12) 0)
      (patchData.getD (patchData.length - 11) 0)
      (patchData.getD (patchData.length - 10) 0)
      (patchData.getD (patchData.length - 9) 0))

/-- The function `can_apply_bps` after both file reads: compares the CRC-32 of the source
bytes with the container-embedded expected checksum. -/
def can_apply_bps (sourceData patchData : Bytes) : Except String Bool :=
  match expected_checksum patchData with
  | Except.error e => Except.error e
  | Except.ok expectedCrc => Except.ok (decide (calculate_crc32 sourceData = expectedCrc))

/-! ### BPS application (`apply_bps`, lines 100-114) -/

/-- The function `apply_bps`: read the source and patch files, run the external BPS
decoder (`flips::BpsPatch::apply`, abstracted as `decode`), and only on a
fully successful decode write the output file.  `bad` is the set of paths on
which a write fails.  The returned filesystem is unchanged on every error
path. -/
def apply_bps (decode : Bytes → Bytes → Except String Bytes) (bad : List PathC)
    (fs : FS) (sourceFilePath patchFilePath outputFilePath : PathC) :
    FS × Except String Unit :=
  match FS.read fs sourceFilePath with
  | none => (fs, Except.error "source read failed")
  | some sourceData =>
      match FS.read fs patchFilePath with
      | none => (fs, Except.error "patch read failed")
      | some patchData =>
          match decode patchData sourceData with
          | Except.error e => (fs, Except.error ("Erreur BPS: " ++ e))
          | Except.ok output =>
              if outputFilePath ∈ bad then (fs, Except.error "write failed")
              else (FS.writeFile fs outputFilePath output, Except.ok ())

/-! ### The install loop (`run_install_process`, lines 263-324) -/

/-- One manifest entry: `{ patchPath, sourcePath }`. -/
structure PatchDetail where
  patch_path : PathC
  source_path : PathC
deriving DecidableEq

/-- Rust `Path::join` for the relative manifest paths. -/
def joinPath (dir rel : PathC) : PathC := dir ++ '/' :: rel

/-- Rust `fs::copy(src, dst)`: fails when the source is missing or the
destination is in the write-fault set; returns the new filesystem and
whether the copy succeeded.  On failure the filesystem is unchanged. -/
def fsCopy (bad : List PathC) (fs : FS) (src dst : PathC) : FS × Bool :=
  match FS.read fs src with
  | none => (fs, false)
  | some data => if dst ∈ bad then (fs, false) else (FS.writeFile fs dst data, true)

/-- Per-file outcome of the install loop. -/
inductive StepOutcome
  | skippedMissingPatch
  | skippedMissingSource
  | verifyFailedWithError
  | verifyMismatch
  | applied (backupOk : Bool)
  | applyFailedRestored
  | applyFailedRestoreFailed
  | applyFailedNoBackup
deriving DecidableEq

/-- One iteration of the install loop for one manifest pair: the skip
checks, `can_apply_bps`, the copy-based backup (failure logged, loop
continues), `apply_bps` in place, and on apply failure the best-effort
restore followed by an abort carrying the original apply error.
Returns (new filesystem, per-file outcome, fatal error aborting the run). -/
def installStep (decode : Bytes → Bytes → Except String Bytes) (bad : List PathC)
    (extractDir gameDir : PathC) (fs : FS) (d : PatchDetail) :
    FS × StepOutcome × Option String :=
  let patchFilePath := joinPath extractDir d.patch_path
  let sourceFilePath := joinPath gameDir d.source_path
  if FS.isFile fs patchFilePath = false then (fs, StepOutcome.skippedMissingPatch, none)
  else if FS.isFile fs sourceFilePath = false then (fs, StepOutcome.skippedMissingSource, none)
  else
    let sourceData := (FS.read fs sourceFilePath).getD []
    let patchData := (FS.read fs patchFilePath).getD []
    match can_apply_bps sourceData patchData with
    | Except.error e => (fs, StepOutcome.verifyFailedWithError, some e)
    | Except.ok false =>
        (fs, StepOutcome.verifyMismatch, some "source file does not match the patch")
    | Except.ok true =>
        let backupFilePath := backupPath sourceFilePath
        match fsCopy bad fs sourceFilePath backupFilePath with
        | (fs1, backupOk) =>
            match apply_bps decode bad fs1 sourceFilePath patchFilePath sourceFilePath with
            | (fs2, Except.ok _) => (fs2, StepOutcome.applied backupOk, none)
            | (fs2, Except.error e) =>
                if FS.isFile fs2 backupFilePath then
                  match fsCopy bad fs2 backupFilePath sourceFilePath with
                  | (fs3, true) => (fs3, StepOutcome.applyFailedRestored, some e)
                  | (fs3, false) => (fs3, StepOutcome.applyFailedRestoreFailed, some e)
                else (fs2, StepOutcome.applyFailedNoBackup, some e)

/-- The install loop over the manifest list, in list order, aborting the
whole run as soon as a step yields a fatal error.  Returns the final
filesystem, the outcomes of the pairs actually processed, and the fatal
error if the run aborted. -/
def run_install_process (decode : Bytes → Bytes → Except String Bytes) (bad : List PathC)
    (extractDir gameDir : PathC) : FS → List PatchDetail →
    FS × List StepOutcome × Option String
  | fs, [] => (fs, [], none)
  | fs, d :: rest =>
      match installStep decode bad extractDir gameDir fs d with
      | (fs1, out, some e) => (fs1, [out], some e)
      | (fs1, out, none) =>
          match run_install_process decode bad extractDir gameDir fs1 rest with
          | (fs2, outs, res) => (fs2, out :: outs, res)

/-! ### The uninstall walk (`run_uninstall_process`, lines 333-397) -/

/-- Aggregate state of the uninstall walk. -/
structure UnState where
  fs : FS
  restored : Nat
  errors : Nat
deriving DecidableEq

/-- The `fs::rename(bak_path, original_path)` part of an uninstall entry
(after the current patched file, if any, has been removed).  `mvBad` is the
set of target paths on which the rename fails; on failure the `.bak` file is
kept (but the original stays deleted, as in the code). -/
def uninstallRename (mvBad : List PathC) (st : UnState) (bakFilePath : PathC) : UnState :=
  if withExtension bakFilePath [] ∈ mvBad then { st with errors := st.errors + 1 }
  else
    { fs := FS.writeFile (FS.removeFile st.fs bakFilePath) (withExtension bakFilePath [])
        ((FS.read st.fs bakFilePath).getD []),
      restored := st.restored + 1,
      errors := st.errors }

/-- One entry of the uninstall walk: the `is_file` and `extension == "bak"`
filter, the ambiguity check `original_path == bak_path`, removal of the
current patched file (`rmBad` = paths on which `fs::remove_file` fails), and
the rename of the backup into place. -/
def uninstallStep (rmBad mvBad : List PathC) (st : UnState) (bakFilePath : PathC) : UnState :=
  if FS.isFile st.fs bakFilePath = true ∧ extension bakFilePath = some bakExt then
    if withExtension bakFilePath [] = bakFilePath then
      { st with errors := st.errors + 1 }
    else
      if FS.isFile st.fs (withExtension bakFilePath []) = true then
        if withExtension bakFilePath [] ∈ rmBad then { st with errors := st.errors + 1 }
        else
          uninstallRename mvBad
            { st with fs := FS.removeFile st.fs (withExtension bakFilePath []) } bakFilePath
      else uninstallRename mvBad st bakFilePath
  else st

/-- The whole uninstall walk over the entries yielded by `WalkDir`,
starting from counts `restored = 0`, `errors = 0`. -/
def run_uninstall_process (rmBad mvBad : List PathC) (fs : FS) (entries : List PathC) :
    UnState :=
  entries.foldl (uninstallStep rmBad mvBad) { fs := fs, restored := 0, errors := 0 }

theorem uninstallStep_errors_le (rmBad mvBad : List PathC) (st : UnState) (e : PathC) :
    st.errors ≤ (uninstallStep rmBad mvBad st e).errors := by
  unfold uninstallStep uninstallRename
  repeat' split
  all_goals simp

theorem uninstall_foldl_errors_le (rmBad mvBad : List PathC) (entries : List PathC)
    (st : UnState) :
    st.errors ≤ (List.foldl (uninstallStep rmBad mvBad) st entries).errors := by
  induction entries generalizing st with
  | nil => simp
  | cons e rest ih =>
      calc st.errors ≤ (uninstallStep rmBad mvBad st e).errors :=
            uninstallStep_errors_le rmBad mvBad st e
        _ ≤ _ := by simpa using ih (uninstallStep rmBad mvBad st e)

/-- On an entry that survives with no error increment, any file with
extension `bak` in the new filesystem was already such a file before the
step and is distinct from the processed entry, provided the stripped
original of the entry does not itself carry extension `bak`. -/
theorem uninstallStep_bak_invariant (rmBad mvBad : List PathC) (st : UnState) (e : PathC)
    (herr : (uninstallStep rmBad mvBad st e).errors = st.errors)
    (hnest : extension (withExtension e []) ≠ some bakExt) :
    ∀ p, FS.isFile (uninstallStep rmBad mvBad st e).fs p = true →
      extension p = some bakExt →
      FS.isFile st.fs p = true ∧ p ≠ e := by
  intro p hp hpext
  by_cases hfilter : FS.isFile st.fs e = true ∧ extension e = some bakExt
  · have hne : withExtension e [] ≠ e := withExtension_nil_ne hfilter.2
    unfold uninstallStep at herr hp
    rw [if_pos hfilter, if_neg hne] at herr hp
    by_cases hex : FS.isFile st.fs (withExtension e []) = true
    · rw [if_pos hex] at herr hp
      by_cases hrm : withExtension e [] ∈ rmBad
      · rw [if_pos hrm] at herr
        simp at herr
      · rw [if_neg hrm] at herr hp
        unfold uninstallRename at herr hp
        by_cases hmv : withExtension e [] ∈ mvBad
        · rw [if_pos hmv] at herr
          simp at herr
        · rw [if_neg hmv] at hp
          simp only [FS.isFile] at hp
          rw [FS.read_writeFile] at hp
          by_cases horig : withExtension e [] = p
          · rw [← horig] at hpext
            exact absurd hpext hnest
          · rw [if_neg horig] at hp
            rw [FS.read_removeFile] at hp
            by_cases hpe : p = e
            · rw [if_pos hpe] at hp
              simp at hp
            · rw [if_neg hpe] at hp
              rw [FS.read_removeFile] at hp
              by_cases hporig : p = withExtension e []
              · exact absurd hporig.symm horig
              · rw [if_neg hporig] at hp
                exact ⟨hp, hpe⟩
    · rw [if_neg hex] at herr hp
      unfold uninstallRename at herr hp
      by_cases hmv : withExtension e [] ∈ mvBad
      · rw [if_pos hmv] at herr
        simp at herr
      · rw [if_neg hmv] at hp
        simp only [FS.isFile] at hp
        rw [FS.read_writeFile] at hp
        by_cases horig : withExtension e [] = p
        · rw [← horig] at hpext
          exact absurd hpext hnest
        · rw [if_neg horig] at hp
          rw [FS.read_removeFile] at hp
          by_cases hpe : p = e
          · rw [if_pos hpe] at hp
            simp at hp
          · rw [if_neg hpe] at hp
            exact ⟨hp, hpe⟩
  · unfold uninstallStep at hp
    rw [if_neg hfilter] at hp
    refine ⟨hp, ?_⟩
    intro hpe
    subst hpe
    exact hfilter ⟨hp, hpext⟩

/-- After a walk that produced no error increment, no file with extension
`bak` remains, provided every `bak` file of the starting filesystem is in
the walk list and no entry strips to a path that again has extension
`bak`. -/
theorem uninstall_foldl_clears_bak (rmBad mvBad : List PathC) :
    ∀ (entries : List PathC) (st : UnState),
      (List.foldl (uninstallStep rmBad mvBad) st entries).errors = st.errors →
      (∀ p, FS.isFile st.fs p = true → extension p = some bakExt → p ∈ entries) →
      (∀ p ∈ entries, extension (withExtension p []) ≠ some bakExt) →
      ∀ p, FS.isFile (List.foldl (uninstallStep rmBad mvBad) st entries).fs p = true →
        extension p ≠ some bakExt := by
  intro entries
  induction entries with
  | nil =>
      intro st herr hcover hnest p hp hpext
      have := hcover p (by simpa using hp) hpext
      simp at this
  | cons e rest ih =>
      intro st herr hcover hnest p hp hpext
      have hstep_le := uninstallStep_errors_le rmBad mvBad st e
      have hrest_le := uninstall_foldl_errors_le rmBad mvBad rest
        (uninstallStep rmBad mvBad st e)
      simp only [List.foldl_cons] at herr hp
      have hstep_err : (uninstallStep rmBad mvBad st e).errors = st.errors := by omega
      have hrest_err :
          (List.foldl (uninstallStep rmBad mvBad) (uninstallStep rmBad mvBad st e) rest).errors
            = (uninstallStep rmBad mvBad st e).errors := by omega
      refine ih (uninstallStep rmBad mvBad st e) hrest_err ?_ ?_ p hp hpext
      · intro q hq hqext
        obtain ⟨hqold, hqne⟩ := uninstallStep_bak_invariant rmBad mvBad st e hstep_err
          (hnest e (List.mem_cons_self e rest)) q hq hqext
        have := hcover q hqold hqext
        simp at this
        rcases this with h | h
        · exact absurd h hqne
        · exact h
      · intro q hq
        exact hnest q (List.mem_cons_of_mem e hq)

/-- A walk over a filesystem with no `bak`-extension file is a no-op. -/
theorem uninstallStep_id_of_no_bak (rmBad mvBad : List PathC) (st : UnState) (e : PathC)
    (h : ∀ p, FS.isFile st.fs p = true → extension p ≠ some bakExt) :
    uninstallStep rmBad mvBad st e = st := by
  unfold uninstallStep
  rw [if_neg]
  intro hfilter
  exact h e hfilter.1 hfilter.2

theorem uninstall_foldl_id_of_no_bak (rmBad mvBad : List PathC) (entries : List PathC)
    (st : UnState) (h : ∀ p, FS.isFile st.fs p = true → extension p ≠ some bakExt) :
    List.foldl (uninstallStep rmBad mvBad) st entries = st := by
  induction entries with
  | nil => rfl
  | cons e rest ih =>
      simp only [List.foldl_cons]
      rw [uninstallStep_id_of_no_bak rmBad mvBad st e h, ih]

/-! ### Install-loop lemmas -/

theorem fsCopy_fst_read (bad : List PathC) (fs : FS) (src dst p : PathC) (h : p ≠ dst) :
    FS.read (fsCopy bad fs src dst).1 p = FS.read fs p := by
  unfold fsCopy
  cases hs : FS.read fs src with
  | none => rfl
  | some data =>
      dsimp only
      by_cases hw : dst ∈ bad
      · simp [hw]
      · simp [hw, FS.read_writeFile, Ne.symm h]

theorem fsCopy_failed_fst (bad : List PathC) (fs : FS) (src dst : PathC)
    (h : (fsCopy bad fs src dst).2 = false) : (fsCopy bad fs src dst).1 = fs := by
  unfold fsCopy at h ⊢
  cases hs : FS.read fs src with
  | none => rfl
  | some data =>
      rw [hs] at h
      dsimp only at h ⊢
      by_cases hw : dst ∈ bad
      · simp [hw]
      · simp [hw] at h

theorem apply_bps_fst_read (decode : Bytes → Bytes → Except String Bytes)
    (bad : List PathC) (fs : FS) (src patch out p : PathC) (h : p ≠ out) :
    FS.read (apply_bps decode bad fs src patch out).1 p = FS.read fs p := by
  unfold apply_bps
  cases hs : FS.read fs src with
  | none => rfl
  | some sd =>
      dsimp only
      cases hp2 : FS.read fs patch with
      | none => rfl
      | some pd =>
          dsimp only
          cases hd : decode pd sd with
          | error e => rfl
          | ok output =>
              dsimp only
              by_cases hw : out ∈ bad
              · simp [hw]
              · simp [hw, FS.read_writeFile, Ne.symm h]

/-- An `installStep` mutates the filesystem at most at the source path of the pair
and its derived backup path. -/
theorem installStep_fst_frame (decode : Bytes → Bytes → Except String Bytes)
    (bad : List PathC) (ed gd : PathC) (fs : FS) (d : PatchDetail) (p : PathC)
    (hps : p ≠ joinPath gd d.source_path)
    (hpb : p ≠ backupPath (joinPath gd d.source_path)) :
    FS.read (installStep decode bad ed gd fs d).1 p = FS.read fs p := by
  simp only [installStep]
  by_cases h1 : FS.isFile fs (joinPath ed d.patch_path) = false
  · simp [h1]
  · rw [if_neg h1]
    by_cases h2 : FS.isFile fs (joinPath gd d.source_path) = false
    · simp [h2]
    · rw [if_neg h2]
      cases hv : can_apply_bps ((FS.read fs (joinPath gd d.source_path)).getD [])
          ((FS.read fs (joinPath ed d.patch_path)).getD []) with
      | error e => rfl
      | ok b =>
          cases b with
          | false => rfl
          | true =>
              dsimp only
              cases hcopy : fsCopy bad fs (joinPath gd d.source_path)
                  (backupPath (joinPath gd d.source_path)) with
              | mk fs1 bok =>
                  dsimp only
                  have hfs1 : FS.read fs1 p = FS.read fs p := by
                    have hh := fsCopy_fst_read bad fs (joinPath gd d.source_path)
                      (backupPath (joinPath gd d.source_path)) p hpb
                    rw [hcopy] at hh
                    exact hh
                  cases happ : apply_bps decode bad fs1 (joinPath gd d.source_path)
                      (joinPath ed d.patch_path) (joinPath gd d.source_path) with
                  | mk fs2 res =>
                      have hfs2 : FS.read fs2 p = FS.read fs1 p := by
                        have hh := apply_bps_fst_read decode bad fs1 (joinPath gd d.source_path)
                          (joinPath ed d.patch_path) (joinPath gd d.source_path) p hps
                        rw [happ] at hh
                        exact hh
                      cases res with
                      | ok u => dsimp only; rw [hfs2, hfs1]
                      | error e =>
                          dsimp only
                          by_cases hbak :
                              FS.isFile fs2 (backupPath (joinPath gd d.source_path)) = true
                          · rw [if_pos hbak]
                            cases hres : fsCopy bad fs2
                                (backupPath (joinPath gd d.source_path))
                                (joinPath gd d.source_path) with
                            | mk fs3 rok =>
                                have hfs3 : FS.read fs3 p = FS.read fs2 p := by
                                  have hh := fsCopy_fst_read bad fs2
                                    (backupPath (joinPath gd d.source_path))
                                    (joinPath gd d.source_path) p hps
                                  rw [hres] at hh
                                  exact hh
                                cases rok with
                                | true => dsimp only; rw [hfs3, hfs2, hfs1]
                                | false => dsimp only; rw [hfs3, hfs2, hfs1]
                          · rw [if_neg hbak]
                            dsimp only
                            rw [hfs2, hfs1]

/-- Evaluation of `installStep` when the pair reaches verification and the
checksum comparison fails: the loop body returns the fatal mismatch error
without touching the filesystem. -/
theorem installStep_of_mismatch (decode : Bytes → Bytes → Except String Bytes)
    (bad : List PathC) (ed gd : PathC) (fs : FS) (d : PatchDetail)
    (hp : FS.isFile fs (joinPath ed d.patch_path) = true)
    (hs : FS.isFile fs (joinPath gd d.source_path) = true)
    (hv : can_apply_bps ((FS.read fs (joinPath gd d.source_path)).getD [])
        ((FS.read fs (joinPath ed d.patch_path)).getD []) = Except.ok false) :
    installStep decode bad ed gd fs d =
      (fs, StepOutcome.verifyMismatch, some "source file does not match the patch") := by
  simp only [installStep]
  rw [if_neg (by simp [hp]), if_neg (by simp [hs]), hv]

/-- Evaluation of `installStep` when the apply step fails: the restore is
attempted and the original apply error is returned as the fatal error. -/
theorem installStep_of_apply_error (decode : Bytes → Bytes → Except String Bytes)
    (bad : List PathC) (ed gd : PathC) (fs fs1 fs2 : FS) (d : PatchDetail)
    (bok : Bool) (e : String)
    (hp : FS.isFile fs (joinPath ed d.patch_path) = true)
    (hs : FS.isFile fs (joinPath gd d.source_path) = true)
    (hv : can_apply_bps ((FS.read fs (joinPath gd d.source_path)).getD [])
        ((FS.read fs (joinPath ed d.patch_path)).getD []) = Except.ok true)
    (hcopy : fsCopy bad fs (joinPath gd d.source_path)
        (backupPath (joinPath gd d.source_path)) = (fs1, bok))
    (happ : apply_bps decode bad fs1 (joinPath gd d.source_path)
        (joinPath ed d.patch_path) (joinPath gd d.source_path) = (fs2, Except.error e)) :
    ∃ fsE out, installStep decode bad ed gd fs d = (fsE, out, some e) ∧
      (out = StepOutcome.applyFailedRestored ∨ out = StepOutcome.applyFailedRestoreFailed ∨
        out = StepOutcome.applyFailedNoBackup) := by
  simp only [installStep]
  rw [if_neg (by simp [hp]), if_neg (by simp [hs]), hv]
  dsimp only
  rw [hcopy]
  dsimp only
  rw [happ]
  dsimp only
  by_cases hbak : FS.isFile fs2 (backupPath (joinPath gd d.source_path)) = true
  · rw [if_pos hbak]
    cases hres : fsCopy bad fs2 (backupPath (joinPath gd d.source_path))
        (joinPath gd d.source_path) with
    | mk fs3 rok =>
        cases rok with
        | true => exact ⟨fs3, StepOutcome.applyFailedRestored, rfl, Or.inl rfl⟩
        | false => exact ⟨fs3, StepOutcome.applyFailedRestoreFailed, rfl, Or.inr (Or.inl rfl)⟩
  · rw [if_neg hbak]
    exact ⟨fs2, StepOutcome.applyFailedNoBackup, rfl, Or.inr (Or.inr rfl)⟩

/-- Evaluation of `installStep` when the apply step succeeds. -/
theorem installStep_of_apply_ok (decode : Bytes → Bytes → Except String Bytes)
    (bad : List PathC) (ed gd : PathC) (fs fs1 fs2 : FS) (d : PatchDetail)
    (bok : Bool) (u : Unit)
    (hp : FS.isFile fs (joinPath ed d.patch_path) = true)
    (hs : FS.isFile fs (joinPath gd d.source_path) = true)
    (hv : can_apply_bps ((FS.read fs (joinPath gd d.source_path)).getD [])
        ((FS.read fs (joinPath ed d.patch_path)).getD []) = Except.ok true)
    (hcopy : fsCopy bad fs (joinPath gd d.source_path)
        (backupPath (joinPath gd d.source_path)) = (fs1, bok))
    (happ : apply_bps decode bad fs1 (joinPath gd d.source_path)
        (joinPath ed d.patch_path) (joinPath gd d.source_path) = (fs2, Except.ok u)) :
    installStep decode bad ed gd fs d = (fs2, StepOutcome.applied bok, none) := by
  simp only [installStep]
  rw [if_neg (by simp [hp]), if_neg (by simp [hs]), hv]
  dsimp only
  rw [hcopy]
  dsimp only
  rw [happ]

/-- Sequencing: a prefix of the manifest that completes without a fatal
error composes with the processing of the remaining pairs. -/
theorem run_install_process_append (decode : Bytes → Bytes → Except String Bytes)
    (bad : List PathC) (ed gd : PathC) :
    ∀ (pre l2 : List PatchDetail) (fs fs1 : FS) (outs : List StepOutcome),
      run_install_process decode bad ed gd fs pre = (fs1, outs, none) →
      run_install_process decode bad ed gd fs (pre ++ l2) =
        ((run_install_process decode bad ed gd fs1 l2).1,
          outs ++ (run_install_process decode bad ed gd fs1 l2).2.1,
          (run_install_process decode bad ed gd fs1 l2).2.2) := by
  intro pre
  induction pre with
  | nil =>
      intro l2 fs fs1 outs h
      simp only [run_install_process] at h
      simp only [Prod.mk.injEq] at h
      obtain ⟨h1, h2, -⟩ := h
      subst h1
      subst h2
      simp
  | cons d rest ih =>
      intro l2 fs fs1 outs h
      simp only [run_install_process] at h
      cases hstep : installStep decode bad ed gd fs d with
      | mk fsa pr =>
          obtain ⟨out, err⟩ := pr
          rw [hstep] at h
          cases err with
          | some e => simp at h
          | none =>
              dsimp only at h
              cases hrec : run_install_process decode bad ed gd fsa rest with
              | mk fs2 pr2 =>
                  obtain ⟨outs2, res⟩ := pr2
                  rw [hrec] at h
                  dsimp only at h
                  simp only [Prod.mk.injEq] at h
                  have hpre : run_install_process decode bad ed gd fsa rest =
                      (fs1, outs2, none) := by
                    rw [hrec, h.1, h.2.2]
                  simp only [List.cons_append, run_install_process]
                  rw [hstep]
                  dsimp only
                  simp only [List.append_eq]
                  rw [ih l2 fsa fs1 outs2 hpre]
                  rw [← h.2.1]
                  simp

/-! ### Concrete data used by the witnesses -/

/-- Character list of a string literal. -/
def pathOf (s : String) : PathC := s.data

/-- A decoder that always fails, for exercising the apply-failure paths. -/
def decodeNone : Bytes → Bytes → Except String Bytes := fun _ _ => Except.error "no decode"

/-- A manifest pair used by several witnesses. -/
def pdMain : PatchDetail := ⟨pathOf "p.bps", pathOf "s.txt"⟩

/-- A 12-byte container whose footer checksum field is zero. -/
def zeroPatch : Bytes := List.replicate 12 0

/-- A 12-byte container whose footer encodes `0xCBF43926`, the CRC-32 of
the ASCII bytes of `123456789`, little-endian. -/
def matchingPatch : Bytes := [38, 57, 244, 203, 0, 0, 0, 0, 0, 0, 0, 0]

/-- Game+archive filesystem where the source does NOT match `zeroPatch`. -/
def fsMismatch : FS := [(pathOf "e/p.bps", zeroPatch), (pathOf "g/s.txt", [1])]

/-- Game+archive filesystem where the source matches `matchingPatch`. -/
def fsMatching : FS := [(pathOf "e/p.bps", matchingPatch),
                        (pathOf "g/s.txt", asciiBytes "123456789")]

/-! ### The claims -/

/-- C7: `calculate_crc32` is a deterministic pure function of the byte
buffer producing a 32-bit value, its bit step is the reflected CRC-32
polynomial `0xEDB88320` (the CRC-32/ISO-HDLC variant), and the checksum of
the ASCII bytes of `"123456789"` is the standard check value `0xCBF43926`. -/
theorem C7_crc32_deterministic_iso_hdlc :
    (∀ B : Bytes, calculate_crc32 B = calculate_crc32 B) ∧
    (∀ B : Bytes, calculate_crc32 B < 2 ^ 32) ∧
    (∀ c : Nat, crc32StepBit c = if c % 2 = 1 then (c / 2) ^^^ 0xEDB88320 else c / 2) ∧
    calculate_crc32 (asciiBytes "123456789") = 0xCBF43926 := by
  refine ⟨fun _ => rfl, calculate_crc32_lt, fun _ => rfl, ?_⟩
  set_option maxRecDepth 8000 in decide

/-- C2: for containers of length at least 12, verification returns `ok true`
exactly when the CRC-32 of the source bytes equals the unsigned 32-bit
little-endian integer stored at offsets `length-12 .. length-9` of the
container; for shorter containers, extracting the expected checksum fails
with an error. -/
theorem C2_verify_iff_crc_matches_footer (patchData sourceData : Bytes) :
    (12 ≤ patchData.length →
      (can_apply_bps sourceData patchData = Except.ok true ↔
        calculate_crc32 sourceData =
          patchData.getD (patchData.length - 12) 0 +
          256 * patchData.getD (patchData.length - 11) 0 +
          65536 * patchData.getD (patchData.length - 10) 0 +
          16777216 * patchData.getD (patchData.length - 9) 0)) ∧
    (patchData.length < 12 → ∃ e, expected_checksum patchData = Except.error e) := by
  constructor
  · intro hlen
    unfold can_apply_bps expected_checksum
    rw [if_neg (by omega)]
    dsimp only
    simp only [Except.ok.injEq, decide_eq_true_eq, u32FromLeBytes]
  · intro hlen
    exact ⟨_, by unfold expected_checksum; rw [if_pos hlen]⟩

/-- C2 witness: a container whose footer encodes the CRC-32 of
`"123456789"` verifies against that source, and a 1-byte container fails
checksum extraction. -/
theorem C2_witness :
    can_apply_bps (asciiBytes "123456789") matchingPatch = Except.ok true ∧
    ∃ e, expected_checksum [0] = Except.error e :=
  ⟨((C2_verify_iff_crc_matches_footer matchingPatch (asciiBytes "123456789")).1
      (by decide)).mpr (by set_option maxRecDepth 8000 in decide),
   (C2_verify_iff_crc_matches_footer [0] []).2 (by decide)⟩

/-- C3 counterexample: for the extensionless path `game` the install flow
derives the backup `game..bak` (not `game.bak` as the claimed "append
`.bak`" wording requires), and the uninstall-flow strip of the trailing
`.bak` extension yields `game.`, which is not the original path `game` —
the round trip fails. -/
theorem C3_counterexample :
    backupPath (pathOf "game") = pathOf "game..bak" ∧
    backupPath (pathOf "game") ≠ pathOf "game.bak" ∧
    withExtension (backupPath (pathOf "game")) [] = pathOf "game." ∧
    pathOf "game." ≠ pathOf "game" := by decide

/-- C3 (amended): for every path whose file name has an extension
(`extension` returns `some`), the install-flow derived backup path is the
original path with `.bak` appended after the extension, and the uninstall
flow strip of the trailing `.bak` extension applied to that backup path
yields exactly the original path.  (For a path with no extension the code
instead produces `<name>..bak`, which strips back to `<name>.`.) -/
theorem C3_backup_roundtrip {p e : PathC} (h : extension p = some e) :
    backupPath p = p ++ bakDotSuffix ∧
    withExtension (backupPath p) [] = p := by
  refine ⟨backupPath_eq_append h, ?_⟩
  rw [backupPath_eq_append h]
  exact strip_backupPath h

/-- C3 witness: the round trip on `game.exe`. -/
theorem C3_witness :
    backupPath (pathOf "game.exe") = pathOf "game.exe.bak" ∧
    withExtension (backupPath (pathOf "game.exe")) [] = pathOf "game.exe" :=
  ⟨(C3_backup_roundtrip (p := pathOf "game.exe") (e := pathOf "exe") (by decide)).1.trans
      (by decide),
   (C3_backup_roundtrip (p := pathOf "game.exe") (e := pathOf "exe") (by decide)).2⟩

/-- C5 counterexample: a file literally named `.bak` does satisfy the
trigger of the claim (stripping the `.bak` extension is a no-op), and it is
skipped with no restoration attempted — but the error count stays 0 instead
of being incremented, because such a file has no extension in Rust path
semantics and already fails the `extension == "bak"` filter. -/
theorem C5_counterexample :
    withExtension (pathOf "d/.bak") [] = pathOf "d/.bak" ∧
    run_uninstall_process [] [] [(pathOf "d/.bak", [0])] [pathOf "d/.bak"] =
      ⟨[(pathOf "d/.bak", [0])], 0, 0⟩ := by decide

/-- C5 (amended): every walk entry whose `.bak`-stripping is a no-op is
skipped with no restoration attempted and with no error-count change (the
whole step is the identity on the walk state): such an entry has no
extension, so it fails the `extension == "bak"` filter, and the
ambiguous-name branch that increments the error count is unreachable. -/
theorem C5_noop_strip_skipped_without_error (rmBad mvBad : List PathC)
    (st : UnState) (p : PathC) (h : withExtension p [] = p) :
    uninstallStep rmBad mvBad st p = st ∧ extension p ≠ some bakExt := by
  have hext := extension_none_of_withExtension_nil_eq h
  refine ⟨?_, hext bakExt⟩
  unfold uninstallStep
  rw [if_neg]
  intro hfilter
  exact hext bakExt hfilter.2

/-- C5 witness: the step on a file literally named `.bak` leaves the state
(filesystem and both counters) unchanged. -/
theorem C5_witness :
    uninstallStep [] [] ⟨[(pathOf "d/.bak", [0])], 3, 4⟩ (pathOf "d/.bak") =
      ⟨[(pathOf "d/.bak", [0])], 3, 4⟩ ∧
    extension (pathOf "d/.bak") ≠ some bakExt :=
  C5_noop_strip_skipped_without_error [] [] ⟨[(pathOf "d/.bak", [0])], 3, 4⟩
    (pathOf "d/.bak") (by decide)

/-- C1: a checksum-verification mismatch aborts the entire install run at
once: if the pairs before `d` complete without a fatal error reaching state
`fsN` and the verification of `d` returns `false`, the full run returns the
fatal mismatch error, the outcome list stops at `d` (no verify, backup, or
apply step runs for any pair of `rest`), and the final filesystem is
exactly `fsN` (no mutation of the source file of `d` nor of any later
pair files). -/
theorem C1_mismatch_aborts_immediately
    (decode : Bytes → Bytes → Except String Bytes) (bad : List PathC) (ed gd : PathC)
    (fs fsN : FS) (pre rest : List PatchDetail) (d : PatchDetail)
    (outs : List StepOutcome)
    (hpre : run_install_process decode bad ed gd fs pre = (fsN, outs, none))
    (hp : FS.isFile fsN (joinPath ed d.patch_path) = true)
    (hs : FS.isFile fsN (joinPath gd d.source_path) = true)
    (hv : can_apply_bps ((FS.read fsN (joinPath gd d.source_path)).getD [])
        ((FS.read fsN (joinPath ed d.patch_path)).getD []) = Except.ok false) :
    run_install_process decode bad ed gd fs (pre ++ d :: rest) =
      (fsN, outs ++ [StepOutcome.verifyMismatch],
        some "source file does not match the patch") := by
  rw [run_install_process_append decode bad ed gd pre (d :: rest) fs fsN outs hpre]
  simp only [run_install_process]
  rw [installStep_of_mismatch decode bad ed gd fsN d hp hs hv]

/-- C1 witness: with a two-pair manifest whose first pair fails
verification, the run aborts after the first pair with the filesystem
untouched and the second pair never attempted. -/
theorem C1_witness :
    run_install_process decodeNone [] (pathOf "e") (pathOf "g") fsMismatch
        [pdMain, pdMain] =
      (fsMismatch, [StepOutcome.verifyMismatch],
        some "source file does not match the patch") :=
  C1_mismatch_aborts_immediately decodeNone [] (pathOf "e") (pathOf "g") fsMismatch
    fsMismatch [] [pdMain] pdMain [] rfl (by decide) (by decide)
    (by set_option maxRecDepth 8000 in decide)

/-- C4: when the apply step of a pair fails, the restore procedure runs
(the outcome is one of the three restore outcomes: restored, restore
failed, or backup absent), and the run aborts propagating the original
apply error `e` regardless of the restore result; no subsequent manifest
pair is processed. -/
theorem C4_apply_failure_aborts_with_original_error
    (decode : Bytes → Bytes → Except String Bytes) (bad : List PathC) (ed gd : PathC)
    (fs fs1 fs2 : FS) (d : PatchDetail) (rest : List PatchDetail) (bok : Bool) (e : String)
    (hp : FS.isFile fs (joinPath ed d.patch_path) = true)
    (hs : FS.isFile fs (joinPath gd d.source_path) = true)
    (hv : can_apply_bps ((FS.read fs (joinPath gd d.source_path)).getD [])
        ((FS.read fs (joinPath ed d.patch_path)).getD []) = Except.ok true)
    (hcopy : fsCopy bad fs (joinPath gd d.source_path)
        (backupPath (joinPath gd d.source_path)) = (fs1, bok))
    (happ : apply_bps decode bad fs1 (joinPath gd d.source_path)
        (joinPath ed d.patch_path) (joinPath gd d.source_path) = (fs2, Except.error e)) :
    ∃ fsE out, installStep decode bad ed gd fs d = (fsE, out, some e) ∧
      (out = StepOutcome.applyFailedRestored ∨ out = StepOutcome.applyFailedRestoreFailed ∨
        out = StepOutcome.applyFailedNoBackup) ∧
      run_install_process decode bad ed gd fs (d :: rest) = (fsE, [out], some e) := by
  obtain ⟨fsE, out, hstep, hout⟩ :=
    installStep_of_apply_error decode bad ed gd fs fs1 fs2 d bok e hp hs hv hcopy happ
  refine ⟨fsE, out, hstep, hout, ?_⟩
  simp only [run_install_process]
  rw [hstep]

/-- C4 witness: a pair that verifies but whose decode fails aborts the run
with the original apply error after a successful restore. -/
theorem C4_witness :
    ∃ fsE out, installStep decodeNone [] (pathOf "e") (pathOf "g") fsMatching pdMain =
        (fsE, out, some "Erreur BPS: no decode") ∧
      (out = StepOutcome.applyFailedRestored ∨ out = StepOutcome.applyFailedRestoreFailed ∨
        out = StepOutcome.applyFailedNoBackup) ∧
      run_install_process decodeNone [] (pathOf "e") (pathOf "g") fsMatching [pdMain] =
        (fsE, [out], some "Erreur BPS: no decode") :=
  C4_apply_failure_aborts_with_original_error decodeNone [] (pathOf "e") (pathOf "g")
    fsMatching
    (fsCopy [] fsMatching (joinPath (pathOf "g") pdMain.source_path)
      (backupPath (joinPath (pathOf "g") pdMain.source_path))).1
    (apply_bps decodeNone []
      (fsCopy [] fsMatching (joinPath (pathOf "g") pdMain.source_path)
        (backupPath (joinPath (pathOf "g") pdMain.source_path))).1
      (joinPath (pathOf "g") pdMain.source_path) (joinPath (pathOf "e") pdMain.patch_path)
      (joinPath (pathOf "g") pdMain.source_path)).1
    pdMain [] true "Erreur BPS: no decode" (by decide) (by decide)
    (by set_option maxRecDepth 8000 in decide) (by decide) (by decide)

/-- C8: a failed backup copy never aborts the run and never skips the apply
step: after a verified pair whose backup copy fails, the loop proceeds to
`apply_bps` on the unchanged filesystem, and the step result is entirely
determined by the apply outcome (success continues with outcome
`applied false` and no fatal error; failure goes through the usual
restore-and-abort path with the apply error). -/
theorem C8_backup_failure_does_not_block
    (decode : Bytes → Bytes → Except String Bytes) (bad : List PathC) (ed gd : PathC)
    (fs : FS) (d : PatchDetail)
    (hp : FS.isFile fs (joinPath ed d.patch_path) = true)
    (hs : FS.isFile fs (joinPath gd d.source_path) = true)
    (hv : can_apply_bps ((FS.read fs (joinPath gd d.source_path)).getD [])
        ((FS.read fs (joinPath ed d.patch_path)).getD []) = Except.ok true)
    (hfail : (fsCopy bad fs (joinPath gd d.source_path)
        (backupPath (joinPath gd d.source_path))).2 = false) :
    (∀ fs2 u, apply_bps decode bad fs (joinPath gd d.source_path)
        (joinPath ed d.patch_path) (joinPath gd d.source_path) = (fs2, Except.ok u) →
      installStep decode bad ed gd fs d = (fs2, StepOutcome.applied false, none)) ∧
    (∀ fs2 e, apply_bps decode bad fs (joinPath gd d.source_path)
        (joinPath ed d.patch_path) (joinPath gd d.source_path) = (fs2, Except.error e) →
      ∃ fsE out, installStep decode bad ed gd fs d = (fsE, out, some e) ∧
        (out = StepOutcome.applyFailedRestored ∨ out = StepOutcome.applyFailedRestoreFailed ∨
          out = StepOutcome.applyFailedNoBackup)) := by
  have hfs1 : (fsCopy bad fs (joinPath gd d.source_path)
      (backupPath (joinPath gd d.source_path))).1 = fs :=
    fsCopy_failed_fst bad fs (joinPath gd d.source_path)
      (backupPath (joinPath gd d.source_path)) hfail
  have hcopy : fsCopy bad fs (joinPath gd d.source_path)
      (backupPath (joinPath gd d.source_path)) = (fs, false) :=
    Prod.ext hfs1 hfail
  constructor
  · intro fs2 u happ
    exact installStep_of_apply_ok decode bad ed gd fs fs fs2 d false u hp hs hv hcopy happ
  · intro fs2 e happ
    exact installStep_of_apply_error decode bad ed gd fs fs fs2 d false e hp hs hv hcopy happ

/-- C8 witness: with the backup destination made unwritable, the step still
runs the apply step and is determined by its (here failing) outcome. -/
theorem C8_witness :
    (∀ fs2 u, apply_bps decodeNone [pathOf "g/s.txt.bak"] fsMatching
        (joinPath (pathOf "g") pdMain.source_path) (joinPath (pathOf "e") pdMain.patch_path)
        (joinPath (pathOf "g") pdMain.source_path) = (fs2, Except.ok u) →
      installStep decodeNone [pathOf "g/s.txt.bak"] (pathOf "e") (pathOf "g") fsMatching
          pdMain = (fs2, StepOutcome.applied false, none)) ∧
    (∀ fs2 e, apply_bps decodeNone [pathOf "g/s.txt.bak"] fsMatching
        (joinPath (pathOf "g") pdMain.source_path) (joinPath (pathOf "e") pdMain.patch_path)
        (joinPath (pathOf "g") pdMain.source_path) = (fs2, Except.error e) →
      ∃ fsE out, installStep decodeNone [pathOf "g/s.txt.bak"] (pathOf "e") (pathOf "g")
          fsMatching pdMain = (fsE, out, some e) ∧
        (out = StepOutcome.applyFailedRestored ∨ out = StepOutcome.applyFailedRestoreFailed ∨
          out = StepOutcome.applyFailedNoBackup)) :=
  C8_backup_failure_does_not_block decodeNone [pathOf "g/s.txt.bak"] (pathOf "e")
    (pathOf "g") fsMatching pdMain (by decide) (by decide)
    (by set_option maxRecDepth 8000 in decide) (by decide)

/-- C9: `apply_bps` is atomic with respect to the output file: if the BPS
decode fails it returns an error and performs no write at all (the
filesystem is returned unchanged, so the bytes of the target file are untouched
even before any restore attempt), and whenever it returns success the
output file was written with the result of a fully successful in-memory
decode. -/
theorem C9_apply_bps_atomic (decode : Bytes → Bytes → Except String Bytes)
    (bad : List PathC) (fs : FS) (src patch out : PathC) :
    (∀ sd pd e, FS.read fs src = some sd → FS.read fs patch = some pd →
      decode pd sd = Except.error e →
      (apply_bps decode bad fs src patch out).1 = fs ∧
        (apply_bps decode bad fs src patch out).2 = Except.error ("Erreur BPS: " ++ e)) ∧
    (∀ u, (apply_bps decode bad fs src patch out).2 = Except.ok u →
      ∃ sd pd output, FS.read fs src = some sd ∧ FS.read fs patch = some pd ∧
        decode pd sd = Except.ok output ∧
        (apply_bps decode bad fs src patch out).1 = FS.writeFile fs out output) := by
  constructor
  · intro sd pd e hsd hpd hdec
    unfold apply_bps
    rw [hsd]
    dsimp only
    rw [hpd]
    dsimp only
    rw [hdec]
    exact ⟨rfl, rfl⟩
  · intro u hok
    unfold apply_bps at hok ⊢
    cases hsd : FS.read fs src with
    | none => rw [hsd] at hok; cases hok
    | some sd =>
        rw [hsd] at hok
        dsimp only at hok ⊢
        cases hpd : FS.read fs patch with
        | none => rw [hpd] at hok; cases hok
        | some pd =>
            rw [hpd] at hok
            dsimp only at hok ⊢
            cases hdec : decode pd sd with
            | error e => rw [hdec] at hok; cases hok
            | ok output =>
                rw [hdec] at hok
                dsimp only at hok ⊢
                by_cases hw : out ∈ bad
                · rw [if_pos hw] at hok; cases hok
                · exact ⟨sd, pd, output, rfl, rfl, hdec, by rw [if_neg hw]⟩

/-- C9 witness: a failing decode leaves the filesystem of `fsMatching`
unchanged and surfaces the decode error. -/
theorem C9_witness :
    (apply_bps decodeNone [] fsMatching (pathOf "g/s.txt") (pathOf "e/p.bps")
        (pathOf "g/s.txt")).1 = fsMatching ∧
    (apply_bps decodeNone [] fsMatching (pathOf "g/s.txt") (pathOf "e/p.bps")
        (pathOf "g/s.txt")).2 = Except.error ("Erreur BPS: " ++ "no decode") :=
  (C9_apply_bps_atomic decodeNone [] fsMatching (pathOf "g/s.txt") (pathOf "e/p.bps")
      (pathOf "g/s.txt")).1 (asciiBytes "123456789") matchingPatch "no decode"
    (by decide) (by decide) rfl

/-- C10: an install-run abort performs no rollback: when the pairs before
`d` complete without fatal error reaching `fsN` and the step of `d` aborts
(mismatch or apply failure), the run result is exactly the step of `d` applied
to `fsN`, and the final filesystem agrees with `fsN` at every path other
than the source path of `d` and its derived backup path — every earlier
pair keeps its patched file and `.bak` backup as they were in `fsN`. -/
theorem C10_abort_no_rollback
    (decode : Bytes → Bytes → Except String Bytes) (bad : List PathC) (ed gd : PathC)
    (fs fsN fsE : FS) (pre rest : List PatchDetail) (d : PatchDetail)
    (outs : List StepOutcome) (out : StepOutcome) (e : String)
    (hpre : run_install_process decode bad ed gd fs pre = (fsN, outs, none))
    (hstep : installStep decode bad ed gd fsN d = (fsE, out, some e)) :
    run_install_process decode bad ed gd fs (pre ++ d :: rest) =
      (fsE, outs ++ [out], some e) ∧
    ∀ p, p ≠ joinPath gd d.source_path →
      p ≠ backupPath (joinPath gd d.source_path) →
      FS.read fsE p = FS.read fsN p := by
  constructor
  · rw [run_install_process_append decode bad ed gd pre (d :: rest) fs fsN outs hpre]
    simp only [run_install_process]
    rw [hstep]
  · intro p hps hpb
    have hh := installStep_fst_frame decode bad ed gd fsN d p hps hpb
    rw [hstep] at hh
    exact hh

/-- C10 witness: an apply-failure abort on the one-pair manifest keeps
every path other than the source and backup of the pair unchanged. -/
theorem C10_witness :
    run_install_process decodeNone [] (pathOf "e") (pathOf "g") fsMatching
        ([] ++ pdMain :: []) =
      ((installStep decodeNone [] (pathOf "e") (pathOf "g") fsMatching pdMain).1,
        [] ++ [(installStep decodeNone [] (pathOf "e") (pathOf "g") fsMatching pdMain).2.1],
        some "Erreur BPS: no decode") ∧
    ∀ p, p ≠ joinPath (pathOf "g") pdMain.source_path →
      p ≠ backupPath (joinPath (pathOf "g") pdMain.source_path) →
      FS.read (installStep decodeNone [] (pathOf "e") (pathOf "g") fsMatching pdMain).1 p =
        FS.read fsMatching p :=
  C10_abort_no_rollback decodeNone [] (pathOf "e") (pathOf "g") fsMatching fsMatching
    (installStep decodeNone [] (pathOf "e") (pathOf "g") fsMatching pdMain).1 [] []
    pdMain []
    (installStep decodeNone [] (pathOf "e") (pathOf "g") fsMatching pdMain).2.1
    "Erreur BPS: no decode" rfl (by set_option maxRecDepth 8000 in decide)

/-- C6 counterexample: with the tree `d/foo.bak`, `d/foo.bak.bak` a first
uninstall run completes with `restored = 2` and `error = 0`, but leaves
`d/foo.bak` on disk, and a second run restores it (`restored = 1`, not 0):
uninstall is not idempotent on every directory tree. -/
theorem C6_counterexample :
    (run_uninstall_process [] [] [(pathOf "d/foo.bak", [1]), (pathOf "d/foo.bak.bak", [2])]
        [pathOf "d/foo.bak", pathOf "d/foo.bak.bak"]).errors = 0 ∧
    (run_uninstall_process [] [] [(pathOf "d/foo.bak", [1]), (pathOf "d/foo.bak.bak", [2])]
        [pathOf "d/foo.bak", pathOf "d/foo.bak.bak"]).restored = 2 ∧
    FS.isFile (run_uninstall_process [] []
        [(pathOf "d/foo.bak", [1]), (pathOf "d/foo.bak.bak", [2])]
        [pathOf "d/foo.bak", pathOf "d/foo.bak.bak"]).fs (pathOf "d/foo.bak") = true ∧
    (run_uninstall_process [] []
        (run_uninstall_process [] []
          [(pathOf "d/foo.bak", [1]), (pathOf "d/foo.bak.bak", [2])]
          [pathOf "d/foo.bak", pathOf "d/foo.bak.bak"]).fs
        [pathOf "d/foo", pathOf "d/foo.bak"]).restored = 1 := by decide

/-- C6 (amended): uninstall is idempotent on trees without nested backups:
if every `bak`-extension file of the tree is in the walk list, no walk
entry strips to a path that itself has extension `bak` (no `*.bak.bak`
file), and the first run reports zero errors, then the resulting tree has
no `bak`-extension file left and any second uninstall run over it is a
no-op reporting `restored = 0` and `errors = 0`. -/
theorem C6_uninstall_idempotent_without_nested_bak
    (rmBad mvBad : List PathC) (fs : FS) (entries : List PathC)
    (hcover : ∀ kv ∈ fs, extension kv.1 = some bakExt → kv.1 ∈ entries)
    (hnest : ∀ p ∈ entries, extension (withExtension p []) ≠ some bakExt)
    (herr : (run_uninstall_process rmBad mvBad fs entries).errors = 0) :
    (∀ p, FS.isFile (run_uninstall_process rmBad mvBad fs entries).fs p = true →
        extension p ≠ some bakExt) ∧
    (∀ rm2 mv2 entries2,
      run_uninstall_process rm2 mv2 (run_uninstall_process rmBad mvBad fs entries).fs
          entries2 =
        ⟨(run_uninstall_process rmBad mvBad fs entries).fs, 0, 0⟩) := by
  have hclear : ∀ p,
      FS.isFile (run_uninstall_process rmBad mvBad fs entries).fs p = true →
        extension p ≠ some bakExt := by
    apply uninstall_foldl_clears_bak rmBad mvBad entries ⟨fs, 0, 0⟩ herr
    · intro p hp hpext
      obtain ⟨d, hd⟩ := Option.isSome_iff_exists.mp hp
      exact hcover (p, d) (FS.read_mem hd) hpext
    · exact hnest
  refine ⟨hclear, ?_⟩
  intro rm2 mv2 entries2
  exact uninstall_foldl_id_of_no_bak rm2 mv2 entries2
    ⟨(run_uninstall_process rmBad mvBad fs entries).fs, 0, 0⟩ hclear

/-- C6 witness: a one-backup tree uninstalls cleanly and a second run is a
no-op. -/
theorem C6_witness :
    (∀ p, FS.isFile (run_uninstall_process [] [] [(pathOf "d/x.bak", [5])]
        [pathOf "d/x.bak"]).fs p = true → extension p ≠ some bakExt) ∧
    (∀ rm2 mv2 entries2,
      run_uninstall_process rm2 mv2
          (run_uninstall_process [] [] [(pathOf "d/x.bak", [5])] [pathOf "d/x.bak"]).fs
          entries2 =
        ⟨(run_uninstall_process [] [] [(pathOf "d/x.bak", [5])] [pathOf "d/x.bak"]).fs,
          0, 0⟩) :=
  C6_uninstall_idempotent_without_nested_bak [] [] [(pathOf "d/x.bak", [5])]
    [pathOf "d/x.bak"] (by decide) (by decide) (by decide)

end Patcher
